import Mathlib

/-!
Verification development for the AiNoteApp ingestion pipeline.

The definitions below are a shallow embedding of the pipeline's source:
`safeParseJSON`, `splitPdf` and `performSemanticSearch` from
`services/geminiService.ts`, `extractTextFromPdfBlob` from
`services/pdfService.ts`, the background-task orchestration of
`handleProcessPdf` / `handleProcessAudio` / `handleNoteCreated` from
`App.tsx`, and the speech-recognition result/error handlers of the audio
recorder component.  JavaScript strings are modelled as Lean `String`
(ASCII whitespace semantics for `trim` and `\s`), JSON values as the
inductive `JsValue`, and the platform's strict `JSON.parse` as the fueled
recursive-descent parser `parseJSON` (numbers are kept as their source
lexemes; `\uXXXX` escapes denoting unpaired UTF-16 surrogates are mapped
to U+FFFD since Lean chars are unicode scalars).
-/

namespace AiNote

/-- A JavaScript JSON value.  Numbers are represented by their source
lexeme, and objects by their member list in source order. -/
inductive JsValue where
  | null
  | bool (b : Bool)
  | num (lexeme : String)
  | str (s : String)
  | arr (elems : List JsValue)
  | obj (fields : List (String × JsValue))

/-- JSON inter-token whitespace: space, tab, line feed, carriage return. -/
def isJsonWs (c : Char) : Bool :=
  c == ' ' || c == '\t' || c == '\n' || c == '\r'

def skipWs (cs : List Char) : List Char := cs.dropWhile isJsonWs

def hexVal (c : Char) : Option Nat :=
  if '0' ≤ c ∧ c ≤ '9' then some (c.toNat - '0'.toNat)
  else if 'a' ≤ c ∧ c ≤ 'f' then some (c.toNat - 'a'.toNat + 10)
  else if 'A' ≤ c ∧ c ≤ 'F' then some (c.toNat - 'A'.toNat + 10)
  else none

/-- Single-character JSON string escapes. -/
def escChar (c : Char) : Option Char :=
  if c = '"' then some '"'
  else if c = '\\' then some '\\'
  else if c = '/' then some '/'
  else if c = 'b' then some '\x08'
  else if c = 'f' then some '\x0c'
  else if c = 'n' then some '\n'
  else if c = 'r' then some '\r'
  else if c = 't' then some '\t'
  else none

/-- Scalar value of a `\uXXXX` escape; surrogate code units become U+FFFD
(model restriction: Lean chars are unicode scalar values). -/
def uniChar (n : Nat) : Char :=
  if 0xD800 ≤ n ∧ n ≤ 0xDFFF then Char.ofNat 0xFFFD else Char.ofNat n

/-- Body of a JSON string after the opening quote: accumulates decoded
characters until the closing quote; raw control characters are a parse
error, exactly as in `JSON.parse`. -/
def parseStringGo : List Char → List Char → Option (String × List Char)
  | [], _ => none
  | '"' :: rest, acc => some (String.mk acc.reverse, rest)
  | '\\' :: 'u' :: h1 :: h2 :: h3 :: h4 :: rest, acc =>
    match hexVal h1, hexVal h2, hexVal h3, hexVal h4 with
    | some a, some b, some c, some d =>
      parseStringGo rest (uniChar (((a * 16 + b) * 16 + c) * 16 + d) :: acc)
    | _, _, _, _ => none
  | '\\' :: e :: rest, acc =>
    match escChar e with
    | some c => parseStringGo rest (c :: acc)
    | none => none
  | '\\' :: [], _ => none
  | c :: rest, acc =>
    if c.toNat < 0x20 then none else parseStringGo rest (c :: acc)

/-- Optional fraction and exponent of a JSON number, returned as lexeme
characters together with the remaining input. -/
def fracExp (cs : List Char) : Option (List Char × List Char) :=
  let fr : Option (List Char × List Char) :=
    match cs with
    | '.' :: r =>
      let ds := r.takeWhile Char.isDigit
      if ds = [] then none else some ('.' :: ds, r.dropWhile Char.isDigit)
    | _ => some ([], cs)
  match fr with
  | none => none
  | some (fchars, cs2) =>
    match cs2 with
    | e :: r =>
      if e = 'e' ∨ e = 'E' then
        let (sg, r2) : List Char × List Char :=
          match r with
          | '+' :: rr => (['+'], rr)
          | '-' :: rr => (['-'], rr)
          | _ => ([], r)
        let ds := r2.takeWhile Char.isDigit
        if ds = [] then none
        else some (fchars ++ e :: (sg ++ ds), r2.dropWhile Char.isDigit)
      else some (fchars, cs2)
    | [] => some (fchars, cs2)

/-- A JSON number token (`-? (0 | [1-9][0-9]*) frac? exp?`), as lexeme. -/
def parseNumber (cs : List Char) : Option (String × List Char) :=
  let (sgn, cs1) : List Char × List Char :=
    match cs with
    | '-' :: r => (['-'], r)
    | _ => ([], cs)
  match cs1 with
  | '0' :: r =>
    (fracExp r).map (fun p => (String.mk (sgn ++ '0' :: p.1), p.2))
  | c :: r =>
    if c.isDigit then
      let ds := r.takeWhile Char.isDigit
      (fracExp (r.dropWhile Char.isDigit)).map
        (fun p => (String.mk (sgn ++ c :: (ds ++ p.1)), p.2))
    else none
  | [] => none

/-- Parser modes: a single value, the tail of an array, the tail of an
object. -/
inductive PMode where
  | value
  | elems (acc : List JsValue)
  | members (acc : List (String × JsValue))

/-- Fueled recursive-descent parser implementing strict `JSON.parse`
(no trailing commas, no comments, double-quoted strings only). -/
def parseRun : Nat → PMode → List Char → Option (JsValue × List Char)
  | 0, _, _ => none
  | Nat.succ fuel, PMode.value, cs =>
    match skipWs cs with
    | '\x7b' :: rest =>
      (match skipWs rest with
       | '\x7d' :: r2 => some (JsValue.obj [], r2)
       | _ => parseRun fuel (PMode.members []) rest)
    | '[' :: rest =>
      (match skipWs rest with
       | ']' :: r2 => some (JsValue.arr [], r2)
       | _ => parseRun fuel (PMode.elems []) rest)
    | '"' :: rest => (parseStringGo rest []).map (fun p => (JsValue.str p.1, p.2))
    | 'n' :: 'u' :: 'l' :: 'l' :: rest => some (JsValue.null, rest)
    | 't' :: 'r' :: 'u' :: 'e' :: rest => some (JsValue.bool true, rest)
    | 'f' :: 'a' :: 'l' :: 's' :: 'e' :: rest => some (JsValue.bool false, rest)
    | rest => (parseNumber rest).map (fun p => (JsValue.num p.1, p.2))
  | Nat.succ fuel, PMode.elems acc, cs =>
    match parseRun fuel PMode.value cs with
    | none => none
    | some (v, r) =>
      match skipWs r with
      | ',' :: r2 => parseRun fuel (PMode.elems (acc ++ [v])) r2
      | ']' :: r2 => some (JsValue.arr (acc ++ [v]), r2)
      | _ => none
  | Nat.succ fuel, PMode.members acc, cs =>
    match skipWs cs with
    | '"' :: rest =>
      (match parseStringGo rest [] with
       | none => none
       | some (k, r) =>
         match skipWs r with
         | ':' :: r2 =>
           (match parseRun fuel PMode.value r2 with
            | none => none
            | some (v, r3) =>
              match skipWs r3 with
              | ',' :: r4 => parseRun fuel (PMode.members (acc ++ [(k, v)])) r4
              | '\x7d' :: r4 => some (JsValue.obj (acc ++ [(k, v)]), r4)
              | _ => none)
         | _ => none)
    | _ => none

/-- Strict `JSON.parse`: a single value with only whitespace around it.
`none` models the `SyntaxError` exception. -/
def parseJSON (s : String) : Option JsValue :=
  match parseRun (2 * s.length + 16) PMode.value s.data with
  | some (v, rest) => if skipWs rest = [] then some v else none
  | none => none

/-! The `safeParseJSON` decoder of `services/geminiService.ts`. -/

/-- Characters removed from both ends by `String.prototype.trim`
(ASCII fragment: HT, LF, VT, FF, CR, space). -/
def jsWsChar (c : Char) : Bool :=
  c == ' ' || (9 ≤ c.toNat && c.toNat ≤ 13)

/-- `text.trim()`. -/
def jsTrim (s : String) : String :=
  String.mk (((s.data.dropWhile jsWsChar).reverse.dropWhile jsWsChar).reverse)

def backtick : Char := Char.ofNat 96

/-- `cleaned.startsWith('\x60\x60\x60')`. -/
def startsWithTicks (s : String) : Bool :=
  s.data.take 3 == [backtick, backtick, backtick]

/-- First fence replace: the regex deletes the three leading backticks, an
optional `json` tag, and an optional following newline. -/
def dropFenceStart (s : String) : String :=
  let r := s.data.drop 3
  let r := if r.take 4 == ['j', 's', 'o', 'n'] then r.drop 4 else r
  match r with
  | '\n' :: r2 => String.mk r2
  | _ => String.mk r

/-- Second fence replace: the regex deletes three trailing backticks and an
optional newline right before them. -/
def dropFenceEnd (s : String) : String :=
  let rev := s.data.reverse
  if rev.take 3 == [backtick, backtick, backtick] then
    match rev.drop 3 with
    | '\n' :: r2 => String.mk r2.reverse
    | r => String.mk r.reverse
  else s

/-- Markdown code-fence stripping, applied only when the trimmed text
starts with three backticks. -/
def stripFences (s : String) : String :=
  if startsWithTicks s then dropFenceEnd (dropFenceStart s) else s

/-- Replacement of one control character by the regex callback: `\n`, `\r`
and `\t` become two-character escapes, other control bytes are deleted,
anything else is kept. -/
def cleanControlChar (c : Char) : List Char :=
  if c = '\n' then ['\\', 'n']
  else if c = '\r' then ['\\', 'r']
  else if c = '\t' then ['\\', 't']
  else if c.toNat < 0x20 ∨ c.toNat = 0x7f then []
  else [c]

/-- `cleaned.replace(/[\x00-\x1F\x7F]/g, ...)`. -/
def cleanControl (s : String) : String :=
  String.mk (s.data.map cleanControlChar).flatten

/-- Count of quote characters not immediately preceded by a backslash
character — the matches of `/(?<!\\)"/g`. -/
def countUQGo : Option Char → List Char → Nat
  | _, [] => 0
  | prev, c :: rest =>
    (if c = '"' ∧ prev ≠ some '\\' then 1 else 0) + countUQGo (some c) rest

def countUnescapedQuotes (s : String) : Nat := countUQGo none s.data

/-- Number of opening brackets/braces — matches of `/[{\[]/g`. -/
def countOpens (s : String) : Nat :=
  s.data.countP (fun c => c == '[' || c == '\x7b')

/-- Number of closing brackets/braces — matches of `/[}\]]/g`. -/
def countCloses (s : String) : Nat :=
  s.data.countP (fun c => c == ']' || c == '\x7d')

/-- `String.prototype.lastIndexOf` for a single character: the index of its
last occurrence, `-1` if absent. -/
def lastIdxGo (c : Char) : List Char → Int → Int → Int
  | [], _, best => best
  | x :: rest, pos, best =>
    lastIdxGo c rest (pos + 1) (if x == c then pos else best)

def lastIdx (s : String) (c : Char) : Int := lastIdxGo c s.data 0 (-1)

/-- The closing character appended by one loop iteration:
`repaired.lastIndexOf('[') > repaired.lastIndexOf('\x7b') ? ']' : '\x7d'`. -/
def closerOf (s : String) : Char :=
  if lastIdx s '[' > lastIdx s '\x7b' then ']' else '\x7d'

/-- The `for (let i = 0; i < opens - closes; i++)` loop: each iteration
recomputes the closer on the grown string and appends it. -/
def closeLoop : Nat → String → String
  | 0, s => s
  | Nat.succ k, s => closeLoop k (s.push (closerOf s))

/-- Quote repair: append one closing quote when the unescaped-quote count
is odd. -/
def repairQuote (s : String) : String :=
  if countUnescapedQuotes s % 2 ≠ 0 then s.push '"' else s

/-- Bracket repair: append `opens - closes` closing characters. -/
def repairClose (s : String) : String :=
  closeLoop (countOpens s - countCloses s) s

/-- The whole repair step run on the cleaned text after the first parse
fails. -/
def repairStep (s : String) : String := repairClose (repairQuote s)

/-- `safeParseJSON` from `services/geminiService.ts`: trim, strip fences,
escape/delete control characters, parse; on failure repair and re-parse; on
a second failure return the empty object. -/
def safeParseJSON (text : String) : JsValue :=
  let cleaned := cleanControl (stripFences (jsTrim text))
  match parseJSON cleaned with
  | some v => v
  | none =>
    match parseJSON (repairStep cleaned) with
    | some v => v
    | none => JsValue.obj []

/-- Modelled from the spec: the opening character (`[` or `\x7b`) that
occurs later in the text while still un-closed, found by a bracket stack
scan (closing characters pop the most recent opener). -/
def openStack : List Char → List Char → List Char
  | [], st => st
  | c :: rest, st =>
    if c = '[' ∨ c = '\x7b' then openStack rest (c :: st)
    else if c = ']' ∨ c = '\x7d' then openStack rest st.tail
    else openStack rest st

/-- Modelled from the spec: the closing character matching the latest
un-closed opener, the choice §4.4 of the spec describes. -/
def specCloser (s : String) : Option Char :=
  (openStack s.data []).head?.map (fun c => if c = '[' then ']' else '\x7d')

/-! The `splitPdf` chunker of `services/geminiService.ts`, modelled on page
indices: a chunk is the list of source page indices copied into it. -/

/-- Page indices collected by the inner loop:
`for (j = 0; j < pagesPerChunk && i + j < totalPages; j++)`. -/
def pageIndices (i totalPages pagesPerChunk : Nat) : List Nat :=
  (List.range pagesPerChunk).filterMap
    (fun j => if i + j < totalPages then some (i + j) else none)

/-- The outer loop `for (i = 0; i < totalPages; i += pagesPerChunk)`,
fueled: one fuel per iteration (with `pagesPerChunk ≥ 1` the loop runs at
most `totalPages` times). -/
def splitGoChunks (totalPages pagesPerChunk : Nat) : Nat → Nat → List (List Nat)
  | 0, _ => []
  | Nat.succ fuel, i =>
    if i < totalPages then
      pageIndices i totalPages pagesPerChunk
        :: splitGoChunks totalPages pagesPerChunk fuel (i + pagesPerChunk)
    else []

/-- `splitPdf`: when the document fits in one chunk the original blob is
returned unchanged (its pages are `[0..totalPages-1]`), otherwise the loop
assembles contiguous page groups. -/
def splitPdf (totalPages pagesPerChunk : Nat) : List (List Nat) :=
  if totalPages ≤ pagesPerChunk then [List.range totalPages]
  else splitGoChunks totalPages pagesPerChunk totalPages 0

/-! The `extractTextFromPdfBlob` extractor of `services/pdfService.ts`. -/

/-- A source page as the extractor sees it: its text-layer items and the
outcome of OCRing its rasterization (`none` = the per-page OCR failure the
code logs and skips). -/
structure PdfPage where
  items : List String
  ocr : Option String

/-- Phase-1 text of one page: item strings joined with spaces, trimmed. -/
def pageText (p : PdfPage) : String := jsTrim (String.intercalate " " p.items)

/-- Phase-1 full text: non-empty page texts joined by blank lines. -/
def fullTextOf (pages : List PdfPage) : String :=
  String.intercalate "\n\n" ((pages.map pageText).filter (fun t => t != ""))

/-- Length of the text with all whitespace removed —
`fullText.replace(/\s/g, '').length`. -/
def nonWsLen (s : String) : Nat :=
  (s.data.filter (fun c => !jsWsChar c)).length

/-- Phase-2 text: trimmed, non-empty OCR results of the first
`min(pageCount, 20)` pages, joined by blank lines. -/
def ocrTextOf (pages : List PdfPage) : String :=
  String.intercalate "\n\n"
    ((((pages.take (min pages.length 20)).filterMap PdfPage.ocr).map jsTrim).filter
      (fun t => t != ""))

/-- The partial-processing marker appended when the 20-page cap truncates
the document. -/
def ocrMarker (pagesToOcr total : Nat) : String :=
  "\n\n--- OCR processed first " ++ toString pagesToOcr ++ " of "
    ++ toString total ++ " pages ---"

structure ExtractResult where
  text : String
  pageCount : Nat
  ocrRan : Bool
  ocrPages : Nat
deriving DecidableEq

/-- `extractTextFromPdfBlob`: return the text layer when it has more than
50 non-whitespace characters, otherwise OCR at most 20 pages and mark the
result partial when pages were skipped. -/
def extractTextFromPdfBlob (pages : List PdfPage) : ExtractResult :=
  let pageCount := pages.length
  let fullText := fullTextOf pages
  if 50 < nonWsLen fullText then
    { text := fullText, pageCount := pageCount, ocrRan := false, ocrPages := 0 }
  else
    let pagesToOcr := min pageCount 20
    let ocrText := ocrTextOf pages
    if pagesToOcr < pageCount then
      { text := ocrText ++ ocrMarker pagesToOcr pageCount, pageCount := pageCount,
        ocrRan := true, ocrPages := pagesToOcr }
    else
      { text := ocrText, pageCount := pageCount, ocrRan := true, ocrPages := pagesToOcr }

/-! The speech-recognition session of the audio recorder component
(`recognition.onresult` / `onerror`, `startRecording`, `stopRecording`). -/

/-- Session state: the accumulated final transcript (`transcriptRef`), the
interim suffix (`interimText`) and whether the logical session is still
capturing (`isRecordingRef`). -/
structure SessionState where
  transcript : String
  interim : String
  capturing : Bool
deriving DecidableEq

/-- A recognizer event: a result batch of `(isFinal, transcript)` segments
starting at `event.resultIndex`, an error with its code, or `stopRecording`. -/
inductive RecEvent where
  | result (rs : List (Bool × String))
  | errorEvt (code : String)
  | stopEvt

/-- One iteration of the `onresult` loop over the pair
(final accumulator, interim): `final += transcript + ' '` for finalized
segments, `interim = transcript` for the rest. -/
def recFold (p : String × String) (r : Bool × String) : String × String :=
  if r.1 then (p.1 ++ r.2 ++ " ", p.2) else (p.1, r.2)

/-- The `onresult` handler: fold the batch, append any finalized text to
the transcript (the `if (final)` guard), and set the interim suffix. -/
def onResult (st : SessionState) (rs : List (Bool × String)) : SessionState :=
  let fi := rs.foldl recFold ("", "")
  let st1 := if fi.1 = "" then st else { st with transcript := st.transcript ++ fi.1 }
  { st1 with interim := fi.2 }

/-- Event step.  The `onerror` handler only restarts the provider stream
(for `no-speech`) or logs; it never changes the buffer or ends the logical
session.  `stopRecording` clears the interim text and stops capturing. -/
def step (st : SessionState) : RecEvent → SessionState
  | RecEvent.result rs => onResult st rs
  | RecEvent.errorEvt _ => st
  | RecEvent.stopEvt => { st with capturing := false, interim := "" }

/-- State right after `startRecording`: buffers reset, capturing. -/
def startState : SessionState :=
  { transcript := "", interim := "", capturing := true }

def runEvents (evs : List RecEvent) : SessionState := evs.foldl step startState

/-- Concatenation of the finalized segments of a batch in order, each with
the trailing space the handler appends; non-final segments contribute
nothing. -/
def finalsOf : List (Bool × String) → String
  | [] => ""
  | r :: rs => if r.1 then r.2 ++ " " ++ finalsOf rs else finalsOf rs

/-- The last non-final segment of a batch, or the empty string. -/
def lastInterimOf (rs : List (Bool × String)) : String :=
  ((rs.filter (fun r => !r.1)).map (fun r => r.2)).getLast?.getD ""

/-! The background-task orchestrator of `App.tsx`. -/

inductive JobStatus where
  | processing
  | organizing
  | success
  | error
deriving DecidableEq, BEq

/-- Observable orchestrator events: a `setBgTask` status change, or the
single `handleNoteCreated` call emitting a batch of note titles. -/
inductive Event where
  | status (s : JobStatus)
  | emit (notes : List String)
deriving DecidableEq, BEq

/-- Title of the note created for chunk `idx` (0-based):
`(Part idx+1)` is appended when there is more than one chunk. -/
def partTitle (total idx : Nat) (t : String) : String :=
  if 1 < total then t ++ " (Part " ++ toString (idx + 1) ++ ")" else t

/-- Titles of the notes created for a list of chunk results, in chunk
order. -/
def partTitles (total : Nat) : Nat → List String → List String
  | _, [] => []
  | i, t :: ts => partTitle total i t :: partTitles total (i + 1) ts

/-- The chunk loop of `handleProcessPdf`: per chunk set `organizing`, then
structure the chunk (`processPdf`, abstracted by its outcome: `ok` carries
the structured title, `error` a thrown exception); a failure is caught by
the surrounding try/catch, which sets `error` and emits nothing.  After the
loop the accumulated notes are emitted in one call — reversed — and status
becomes `success`. -/
def pdfGo (total : Nat) : List (Except Unit String) → Nat → List String → List Event
  | [], _, acc => [Event.emit acc.reverse, Event.status JobStatus.success]
  | r :: rest, i, acc =>
    Event.status JobStatus.organizing ::
      match r with
      | Except.error _ => [Event.status JobStatus.error]
      | Except.ok t => pdfGo total rest (i + 1) (acc ++ [partTitle total i t])

/-- `handleProcessPdf` as its trace of observable events, parametrized by
the per-chunk structuring outcomes. -/
def handleProcessPdfTrace (chunkData : List (Except Unit String)) : List Event :=
  Event.status JobStatus.processing :: pdfGo chunkData.length chunkData 0 []

/-- All note titles emitted by a trace, in emission order. -/
def emittedNotes (tr : List Event) : List String :=
  tr.foldr (fun e acc => match e with | Event.emit l => l ++ acc | _ => acc) []

/-- `handleProcessAudio` as its status trace, parametrized by the
transcription and structuring outcomes: `processing`, then transcribe;
`organizing`, then structure; `success` — any exception is caught and sets
`error`. -/
def audioTrace (t : Except Unit String) (o : Except Unit Unit) : List JobStatus :=
  JobStatus.processing ::
    match t with
    | Except.error _ => [JobStatus.error]
    | Except.ok _ =>
      JobStatus.organizing ::
        match o with
        | Except.error _ => [JobStatus.error]
        | Except.ok _ => [JobStatus.success]

/-! `handleNoteCreated` and the note collection of `App.tsx`. -/

structure Note where
  id : String
  title : String
  subject : String
  date : String
  noteType : String
  summary : String
  tags : List String
deriving DecidableEq

/-- The `Note | Note[]` argument of `handleNoteCreated`. -/
inductive NoteBatch where
  | one (n : Note)
  | many (ns : List Note)

/-- `Array.isArray(newNotes) ? newNotes : [newNotes]`. -/
def batchList : NoteBatch → List Note
  | NoteBatch.one n => [n]
  | NoteBatch.many ns => ns

/-- `setNotes(prev => [...notesToAdd, ...prev])`. -/
def handleNoteCreated (newNotes : NoteBatch) (prev : List Note) : List Note :=
  batchList newNotes ++ prev

/-! `performSemanticSearch` of `services/geminiService.ts`. -/

/-- JavaScript property access `parsed.noteIds`: defined members of
objects only (`none` is `undefined`); the later of duplicate keys wins. -/
def getFieldGo (k : String) : List (String × JsValue) → Option JsValue
  | [] => none
  | (k', v) :: rest =>
    match getFieldGo k rest with
    | some r => some r
    | none => if k' = k then some v else none

def getField : JsValue → String → Option JsValue
  | JsValue.obj fs, k => getFieldGo k fs
  | _, _ => none

/-- Whether a JSON number lexeme denotes zero: every mantissa digit is 0. -/
def zeroLexeme (lex : String) : Bool :=
  (lex.data.takeWhile (fun c => c != 'e' && c != 'E')).all
    (fun c => !c.isDigit || c == '0')

/-- JavaScript truthiness of a JSON value. -/
def truthy : JsValue → Bool
  | JsValue.null => false
  | JsValue.bool b => b
  | JsValue.num lex => !zeroLexeme lex
  | JsValue.str s => s != ""
  | JsValue.arr _ => true
  | JsValue.obj _ => true

/-- The trailing `|| parsed || []` of the return expression. -/
def fallbackTail (p : JsValue) : JsValue :=
  if truthy p then p else JsValue.arr []

/-- `return parsed.noteIds || parsed || []`.  Property access on `null`
throws, which the surrounding catch converts to `[]`. -/
def searchReturn (parsed : JsValue) : JsValue :=
  match parsed with
  | JsValue.null => JsValue.arr []
  | p =>
    match getField p "noteIds" with
    | some v => if truthy v then v else fallbackTail p
    | none => fallbackTail p

/-- What `performSemanticSearch` returns and whether the model was called. -/
structure SearchCall where
  modelCalled : Bool
  result : JsValue

/-- `performSemanticSearch`, parametrized by the raw model response text:
an empty (whitespace-only) query or empty metadata list short-circuits to
`[]` before any model call. -/
def performSemanticSearch (query : String) (notesMetadata : List String)
    (modelResponse : String) : SearchCall :=
  if jsTrim query = "" ∨ notesMetadata.length = 0 then
    { modelCalled := false, result := JsValue.arr [] }
  else
    { modelCalled := true, result := searchReturn (safeParseJSON modelResponse) }

/-! Helper lemmas. -/

lemma partTitles_length (total : Nat) (ts : List String) :
    ∀ i : Nat, (partTitles total i ts).length = ts.length := by
  induction ts with
  | nil => intro i; simp [partTitles]
  | cons t ts ih => intro i; simp [partTitles, ih (i + 1)]

lemma pdfGo_ok (total : Nat) (ts : List String) :
    ∀ (i : Nat) (acc : List String),
      pdfGo total (ts.map Except.ok) i acc
        = List.replicate ts.length (Event.status JobStatus.organizing)
          ++ [Event.emit (acc ++ partTitles total i ts).reverse,
              Event.status JobStatus.success] := by
  induction ts with
  | nil => intro i acc; simp [pdfGo, partTitles]
  | cons t ts ih =>
    intro i acc
    simp only [List.map_cons, pdfGo, ih (i + 1) (acc ++ [partTitle total i t]),
      partTitles, List.append_assoc, List.cons_append, List.singleton_append]
    simp [List.replicate_succ]

lemma pdfGo_err (total : Nat) (pre : List String) :
    ∀ (i : Nat) (acc : List String) (rest : List (Except Unit String)),
      pdfGo total (pre.map Except.ok ++ Except.error () :: rest) i acc
        = List.replicate (pre.length + 1) (Event.status JobStatus.organizing)
          ++ [Event.status JobStatus.error] := by
  induction pre with
  | nil => intro i acc rest; simp [pdfGo, List.replicate_succ]
  | cons t pre ih =>
    intro i acc rest
    simp only [List.map_cons, List.cons_append, pdfGo, List.length_cons,
      List.append_eq]
    rw [ih (i + 1) (acc ++ [partTitle total i t]) rest]
    simp [List.replicate_succ]

lemma emittedNotes_status (s : JobStatus) (l : List Event) :
    emittedNotes (Event.status s :: l) = emittedNotes l := rfl

lemma emittedNotes_replicate (n : Nat) (s : JobStatus) (l : List Event) :
    emittedNotes (List.replicate n (Event.status s) ++ l) = emittedNotes l := by
  induction n with
  | zero => simp
  | succ n ih => simpa [List.replicate_succ, emittedNotes_status] using ih

lemma emittedNotes_emit_status (L : List String) (s : JobStatus) :
    emittedNotes [Event.emit L, Event.status s] = L := by
  simp [emittedNotes]

lemma getLastD_cons (x b : String) (l : List String) :
    ((x :: l).getLast?.getD b) = (l.getLast?.getD x) := by
  induction l generalizing x b with
  | nil => rfl
  | cons y l ih => rw [List.getLast?_cons_cons]; rw [ih y b, ih y x]

lemma recFold_spec (rs : List (Bool × String)) :
    ∀ a b : String,
      rs.foldl recFold (a, b)
        = (a ++ finalsOf rs,
           ((rs.filter (fun r => !r.1)).map (fun r => r.2)).getLast?.getD b) := by
  induction rs with
  | nil => intro a b; simp [finalsOf]
  | cons r rs ih =>
    intro a b
    obtain ⟨f, t⟩ := r
    cases f with
    | true =>
      rw [show List.foldl recFold (a, b) ((true, t) :: rs)
            = List.foldl recFold (a ++ t ++ " ", b) rs from by simp [recFold]]
      rw [ih (a ++ t ++ " ") b]
      simp [finalsOf, String.append_assoc]
    | false =>
      rw [show List.foldl recFold (a, b) ((false, t) :: rs)
            = List.foldl recFold (a, t) rs from by simp [recFold]]
      rw [ih a t]
      simp only [finalsOf, List.filter_cons]
      simp [getLastD_cons]

lemma lastIdxGo_concat (c x : Char) (l : List Char) :
    ∀ pos best : Int,
      lastIdxGo c (l ++ [x]) pos best
        = if x == c then pos + l.length else lastIdxGo c l pos best := by
  induction l with
  | nil =>
    intro pos best
    cases hxc : (x == c) <;> simp [lastIdxGo, hxc]
  | cons y l ih =>
    intro pos best
    simp only [List.cons_append, lastIdxGo, List.append_eq]
    rw [ih]
    cases hxc : (x == c)
    · simp [hxc, lastIdxGo]
    · simp only [hxc, if_true, List.length_cons]
      push_cast
      omega

lemma lastIdx_push (s : String) (c d : Char) (h : (d == c) = false) :
    lastIdx (s.push d) c = lastIdx s c := by
  unfold lastIdx
  rw [String.data_push, lastIdxGo_concat, h]
  simp

lemma closerOf_push (s : String) (d : Char) (h1 : (d == '[') = false)
    (h2 : (d == '\x7b') = false) : closerOf (s.push d) = closerOf s := by
  unfold closerOf
  rw [lastIdx_push s '[' d h1, lastIdx_push s '\x7b' d h2]

lemma closerOf_cases (s : String) : closerOf s = ']' ∨ closerOf s = '\x7d' := by
  unfold closerOf
  split
  · exact Or.inl rfl
  · exact Or.inr rfl

lemma closeLoop_eq (k : Nat) :
    ∀ s : String,
      closeLoop k s = s ++ String.mk (List.replicate k (closerOf s)) := by
  induction k with
  | zero =>
    intro s
    apply String.ext
    simp [closeLoop]
  | succ k ih =>
    intro s
    have hstable : closerOf (s.push (closerOf s)) = closerOf s := by
      rcases closerOf_cases s with h | h <;> rw [h]
      · exact (closerOf_push s ']' (by decide) (by decide)).trans h
      · exact (closerOf_push s '\x7d' (by decide) (by decide)).trans h
    unfold closeLoop
    rw [ih (s.push (closerOf s)), hstable]
    apply String.ext
    simp [List.replicate_succ]

lemma countOpens_push_quote (s : String) : countOpens (s.push '"') = countOpens s := by
  unfold countOpens
  rw [String.data_push, List.countP_append]
  simp [List.countP_cons]

lemma countCloses_push_quote (s : String) : countCloses (s.push '"') = countCloses s := by
  unfold countCloses
  rw [String.data_push, List.countP_append]
  simp [List.countP_cons]

lemma countOpens_repairQuote (s : String) : countOpens (repairQuote s) = countOpens s := by
  unfold repairQuote
  split
  · exact countOpens_push_quote s
  · rfl

lemma countCloses_repairQuote (s : String) : countCloses (repairQuote s) = countCloses s := by
  unfold repairQuote
  split
  · exact countCloses_push_quote s
  · rfl

lemma closerOf_repairQuote (s : String) : closerOf (repairQuote s) = closerOf s := by
  unfold repairQuote
  split
  · exact closerOf_push s '"' rfl rfl
  · rfl

lemma pageIndices_eq (i N : Nat) :
    ∀ K : Nat, pageIndices i N K = List.range' i (min K (N - i)) := by
  intro K
  induction K with
  | zero => simp [pageIndices]
  | succ K ih =>
    unfold pageIndices at ih ⊢
    rw [List.range_succ, List.filterMap_append, ih]
    by_cases h : i + K < N
    · have h1 : min K (N - i) = K := by omega
      have h2 : min (K + 1) (N - i) = K + 1 := by omega
      simp [h, h1, h2, List.range'_1_concat]
    · have h1 : min K (N - i) = min (K + 1) (N - i) := by omega
      simp [h, h1]

lemma splitGo_join (N K : Nat) (_hK : 0 < K) :
    ∀ fuel i : Nat, N ≤ i + fuel * K →
      (splitGoChunks N K fuel i).flatten = List.range' i (N - i) := by
  intro fuel
  induction fuel with
  | zero =>
    intro i h
    simp only [Nat.zero_mul, Nat.add_zero] at h
    simp [splitGoChunks, show N - i = 0 from by omega]
  | succ fuel ih =>
    intro i h
    rw [Nat.succ_mul] at h
    unfold splitGoChunks
    by_cases hi : i < N
    · rw [if_pos hi]
      rw [List.flatten_cons, pageIndices_eq, ih (i + K) (by omega)]
      by_cases h2 : K ≤ N - i
      · rw [show min K (N - i) = K from by omega]
        rw [List.range'_append_1 i K (N - (i + K))]
        rw [show N - (i + K) + K = N - i from by omega]
      · rw [show min K (N - i) = N - i from by omega]
        rw [show N - (i + K) = 0 from by omega]
        simp
    · rw [if_neg hi]
      simp [show N - i = 0 from by omega]

lemma splitGo_length (N K : Nat) (hK : 0 < K) :
    ∀ fuel i : Nat, N ≤ i + fuel * K →
      (splitGoChunks N K fuel i).length = (N - i + K - 1) / K := by
  intro fuel
  induction fuel with
  | zero =>
    intro i h
    simp only [Nat.zero_mul, Nat.add_zero] at h
    rw [show N - i = 0 from by omega]
    simp only [splitGoChunks, List.length_nil]
    symm
    apply Nat.div_eq_of_lt
    omega
  | succ fuel ih =>
    intro i h
    rw [Nat.succ_mul] at h
    unfold splitGoChunks
    by_cases hi : i < N
    · rw [if_pos hi]
      simp only [List.length_cons]
      rw [ih (i + K) (by omega)]
      by_cases hM : K ≤ N - i
      · rw [show N - (i + K) + K - 1 = N - i - 1 from by omega]
        rw [show N - i + K - 1 = (N - i - 1) + K from by omega]
        rw [Nat.add_div_right _ hK]
      · rw [show N - (i + K) = 0 from by omega]
        rw [Nat.div_eq_of_lt (show 0 + K - 1 < K from by omega)]
        rw [show (N - i + K - 1) / K = 1 from
          Nat.div_eq_of_lt_le (by omega) (by omega)]
    · rw [if_neg hi]
      rw [show N - i = 0 from by omega]
      simp only [List.length_nil]
      symm
      apply Nat.div_eq_of_lt
      omega

/-! Claim theorems. -/

/-- Claim C1.  The decoder never raises (it is a total function into
`JsValue`) and malformed input degrades to a value, but the second half of
the claim — that well-formed JSON input decodes to exactly its strict
parse — is false: the control-character replacement escapes newlines that
are legal inter-token whitespace, so the well-formed input `"[\n]"`, whose
strict parse is the empty array, is corrupted to `"[\\n]"`, fails both
parses and decodes to the empty object, while the same document without
the newline decodes correctly. -/
theorem claim_C1_safeParseJSON_eval :
    safeParseJSON "[\n]" = JsValue.obj []
      ∧ parseJSON "[\n]" = some (JsValue.arr [])
      ∧ safeParseJSON "[1,2]" = JsValue.arr [JsValue.num "1", JsValue.num "2"] :=
  ⟨rfl, rfl, rfl⟩

/-- Claim C2.  For a document with at least one page and a positive chunk
size: `splitPdf` yields `ceil(N/K) = (N + K - 1) / K` chunks; the
concatenation of the chunk page-index lists in chunk order is exactly
`[0..N-1]` (no gaps, overlaps or reordering); and when `N ≤ K` the result
is the single chunk equal to the whole input document. -/
theorem claim_C2_splitPdf (N K : Nat) (hK : 0 < K) (hN : 0 < N) :
    (splitPdf N K).length = (N + K - 1) / K
      ∧ (splitPdf N K).flatten = List.range N
      ∧ (N ≤ K → splitPdf N K = [List.range N]) := by
  unfold splitPdf
  by_cases hNK : N ≤ K
  · rw [if_pos hNK]
    refine ⟨?_, by simp, fun _ => rfl⟩
    rw [show (N + K - 1) / K = 1 from Nat.div_eq_of_lt_le (by omega) (by omega)]
    rfl
  · rw [if_neg hNK]
    have hfuel : N ≤ 0 + N * K := by
      have := Nat.le_mul_of_pos_right N hK
      omega
    refine ⟨?_, ?_, fun hle => absurd hle hNK⟩
    · rw [splitGo_length N K hK N 0 hfuel]
      rw [Nat.sub_zero]
    · rw [splitGo_join N K hK N 0 hfuel]
      rw [Nat.sub_zero, List.range_eq_range']

/-- Witness for claim C2: the 12-page, 5-per-chunk job from the spec gives
three chunks partitioning `[0..11]`, and a 3-page document with the same
chunk size stays one whole-document chunk. -/
theorem claim_C2_splitPdf_witness :
    (0 < 5 ∧ 0 < 12 ∧ (splitPdf 12 5).length = (12 + 5 - 1) / 5
        ∧ (splitPdf 12 5).flatten = List.range 12)
      ∧ (0 < 3 ∧ 3 ≤ 5 ∧ splitPdf 3 5 = [List.range 3]) :=
  ⟨⟨by decide, by decide, (claim_C2_splitPdf 12 5 (by decide) (by decide)).1,
      (claim_C2_splitPdf 12 5 (by decide) (by decide)).2.1⟩,
    ⟨by decide, by decide,
      (claim_C2_splitPdf 3 5 (by decide) (by decide)).2.2 (by decide)⟩⟩

/-- Claim C3.  In the PDF path, one note is created per chunk with a
`(Part N)` title suffix exactly when there is more than one chunk
(`partTitle`/`partTitles`); on an all-success run the trace is
`processing`, one `organizing` per chunk, then a single emission of all
notes followed by `success`; if any chunk fails, the trace ends in `error`
right after that chunk's `organizing` and contains no emission at all —
zero notes are surfaced. -/
theorem claim_C3_pdf_orchestration (titles pre : List String)
    (rest : List (Except Unit String)) :
    handleProcessPdfTrace (titles.map Except.ok)
        = Event.status JobStatus.processing ::
          (List.replicate titles.length (Event.status JobStatus.organizing)
            ++ [Event.emit (partTitles titles.length 0 titles).reverse,
                Event.status JobStatus.success])
      ∧ (partTitles titles.length 0 titles).length = titles.length
      ∧ handleProcessPdfTrace (pre.map Except.ok ++ Except.error () :: rest)
          = Event.status JobStatus.processing ::
            (List.replicate (pre.length + 1) (Event.status JobStatus.organizing)
              ++ [Event.status JobStatus.error]) := by
  refine ⟨?_, partTitles_length titles.length titles 0, ?_⟩
  · unfold handleProcessPdfTrace
    rw [pdfGo_ok]
    simp
  · unfold handleProcessPdfTrace
    rw [pdfGo_err]

/-- Claim C4, counterexample.  For a two-chunk job the emitted note array
is `["B (Part 2)", "A (Part 1)"]` — the note of chunk 2 precedes the note
of chunk 1, so the emitted array does not preserve source order. -/
theorem claim_C4_counterexample :
    emittedNotes (handleProcessPdfTrace [Except.ok "A", Except.ok "B"])
        = ["B (Part 2)", "A (Part 1)"]
      ∧ ((emittedNotes (handleProcessPdfTrace [Except.ok "A", Except.ok "B"])
          == ["A (Part 1)", "B (Part 2)"]) = false) :=
  ⟨rfl, rfl⟩

/-- Claim C4, amended.  The array of notes emitted at the end of a
multi-chunk job is the chunk-order note list reversed
(`createdNotes.reverse()` before `handleNoteCreated`): the note for chunk
i+1 precedes the note for chunk i. -/
theorem claim_C4_emitted_reversed (titles : List String) :
    emittedNotes (handleProcessPdfTrace (titles.map Except.ok))
      = (partTitles titles.length 0 titles).reverse := by
  unfold handleProcessPdfTrace
  rw [pdfGo_ok]
  simp only [List.length_map, List.nil_append, emittedNotes_status,
    emittedNotes_replicate]
  simp [emittedNotes]

/-- Claim C5.  OCR runs exactly when the Phase-1 text layer, with all
whitespace removed, has at most 50 characters; when it runs, the number of
OCR'd pages is `min(pageCount, 20)` — never more than 20 — and when the
document has more than 20 pages the returned text is the OCR text followed
by the explicit partial-processing marker naming 20 of `pageCount` pages. -/
theorem claim_C5_extractor (pages : List PdfPage) :
    (extractTextFromPdfBlob pages).ocrRan
        = decide (nonWsLen (fullTextOf pages) ≤ 50)
      ∧ (extractTextFromPdfBlob pages).ocrPages
          = (if (extractTextFromPdfBlob pages).ocrRan then min pages.length 20 else 0)
      ∧ (extractTextFromPdfBlob pages).ocrPages ≤ 20
      ∧ ((extractTextFromPdfBlob pages).ocrRan = true → 20 < pages.length →
          (extractTextFromPdfBlob pages).text
            = ocrTextOf pages ++ ocrMarker 20 pages.length) := by
  by_cases h : 50 < nonWsLen (fullTextOf pages)
  · have hr : extractTextFromPdfBlob pages
        = { text := fullTextOf pages, pageCount := pages.length,
            ocrRan := false, ocrPages := 0 } := by
      unfold extractTextFromPdfBlob
      rw [if_pos h]
    rw [hr]
    refine ⟨?_, rfl, by show (0 : Nat) ≤ 20; omega, ?_⟩
    · show false = decide (nonWsLen (fullTextOf pages) ≤ 50)
      symm
      rw [decide_eq_false_iff_not]
      omega
    · intro hc
      simp at hc
  · by_cases h2 : min pages.length 20 < pages.length
    · have hr : extractTextFromPdfBlob pages
          = { text := ocrTextOf pages
                ++ ocrMarker (min pages.length 20) pages.length,
              pageCount := pages.length, ocrRan := true,
              ocrPages := min pages.length 20 } := by
        unfold extractTextFromPdfBlob
        rw [if_neg h, if_pos h2]
      rw [hr]
      refine ⟨?_, rfl, Nat.min_le_right _ _, ?_⟩
      · show true = decide (nonWsLen (fullTextOf pages) ≤ 50)
        symm
        rw [decide_eq_true_eq]
        omega
      · intro _ hgt
        rw [show min pages.length 20 = 20 from by omega]
    · have hr : extractTextFromPdfBlob pages
          = { text := ocrTextOf pages, pageCount := pages.length,
              ocrRan := true, ocrPages := min pages.length 20 } := by
        unfold extractTextFromPdfBlob
        rw [if_neg h, if_neg h2]
      rw [hr]
      refine ⟨?_, rfl, Nat.min_le_right _ _, ?_⟩
      · show true = decide (nonWsLen (fullTextOf pages) ≤ 50)
        symm
        rw [decide_eq_true_eq]
        omega
      · intro _ hgt
        exact absurd hgt (by omega)

/-- Witness for claim C5: a 21-page scanned document (one-character text
layer per page) triggers OCR, exceeds the 20-page cap, and its returned
text carries the partial-processing marker. -/
theorem claim_C5_extractor_witness :
    (extractTextFromPdfBlob (List.replicate 21 (⟨["x"], some "y"⟩ : PdfPage))).ocrRan
        = true
      ∧ 20 < (List.replicate 21 (⟨["x"], some "y"⟩ : PdfPage)).length
      ∧ (extractTextFromPdfBlob (List.replicate 21 (⟨["x"], some "y"⟩ : PdfPage))).text
          = ocrTextOf (List.replicate 21 (⟨["x"], some "y"⟩ : PdfPage))
            ++ ocrMarker 20 (List.replicate 21 (⟨["x"], some "y"⟩ : PdfPage)).length :=
  ⟨by decide, by decide,
    (claim_C5_extractor (List.replicate 21 (⟨["x"], some "y"⟩ : PdfPage))).2.2.2
      (by decide) (by decide)⟩

/-- Claim C6, counterexample.  On `"[\x7b\x7d"` (an unclosed array holding
a closed object) the un-closed opener occurring last is `[`, so the
spec's rule calls for `]`; the code instead compares raw `lastIndexOf`
positions — the closed `\x7b` occurs later than `[` — and appends `\x7d`,
yielding an unparseable repair. -/
theorem claim_C6_counterexample :
    repairStep "[\x7b\x7d" = "[\x7b\x7d\x7d"
      ∧ specCloser "[\x7b\x7d" = some ']'
      ∧ ((']' : Char) == '\x7d') = false :=
  ⟨by decide, by decide, by decide⟩

/-- Claim C6, amended.  After the odd-quote-count repair appends a closing
quote, the bracket repair appends exactly `opens - closes` closing
characters (the counts are unchanged by the appended quote), and every
appended character is the single closer — `]` or `\x7d` — selected by
comparing the positions of the last occurrences of `[` and `\x7b` in the
text, regardless of whether those openers are already closed. -/
theorem claim_C6_repair (s : String) :
    repairStep s
        = repairQuote s
          ++ String.mk (List.replicate (countOpens s - countCloses s) (closerOf s))
      ∧ countOpens (repairQuote s) = countOpens s
      ∧ countCloses (repairQuote s) = countCloses s
      ∧ closerOf (repairQuote s) = closerOf s
      ∧ (closerOf s = ']' ∨ closerOf s = '\x7d') := by
  refine ⟨?_, countOpens_repairQuote s, countCloses_repairQuote s,
    closerOf_repairQuote s, closerOf_cases s⟩
  unfold repairStep repairClose
  rw [closeLoop_eq, countOpens_repairQuote, countCloses_repairQuote,
    closerOf_repairQuote]

/-- Claim C7.  On the audio path the status sequence is exactly
`processing`, `organizing`, `success` when both stages succeed; when
transcription fails it is exactly `processing`, `error`, and `organizing`
never appears in the trace. -/
theorem claim_C7_audio_status (tr : String) (o : Except Unit Unit) :
    audioTrace (Except.ok tr) (Except.ok ())
        = [JobStatus.processing, JobStatus.organizing, JobStatus.success]
      ∧ audioTrace (Except.error ()) o = [JobStatus.processing, JobStatus.error]
      ∧ (audioTrace (Except.error ()) o).contains JobStatus.organizing = false := by
  refine ⟨rfl, rfl, ?_⟩
  rw [show audioTrace (Except.error ()) o
        = [JobStatus.processing, JobStatus.error] from rfl]
  rfl

/-- Claim C8.  Recognizer result batches obey the append/replace
discipline: the accumulated transcript after a result event is the old
transcript with the batch's finalized text appended (never overwritten),
the interim suffix is replaced by the batch's last non-final segment
(never appended), capturing is untouched; error events (in particular
`no-speech`) leave the whole session state — including `capturing` —
unchanged; and the concrete interim/interim/final/no-speech scenario ends
with confirmed text `"the cat sat. "`, empty interim, still capturing. -/
theorem claim_C8_transcript_buffer (st : SessionState)
    (rs : List (Bool × String)) (code : String) :
    (onResult st rs).transcript = st.transcript ++ finalsOf rs
      ∧ (onResult st rs).interim = lastInterimOf rs
      ∧ (onResult st rs).capturing = st.capturing
      ∧ step st (RecEvent.errorEvt code) = st
      ∧ runEvents
          [RecEvent.result [(false, "the ca")], RecEvent.result [(false, "the cat")],
           RecEvent.result [(true, "the cat sat.")], RecEvent.errorEvt "no-speech"]
          = { transcript := "the cat sat. ", interim := "", capturing := true } := by
  have hfold := recFold_spec rs "" ""
  refine ⟨?_, ?_, ?_, rfl, rfl⟩
  · unfold onResult
    rw [hfold]
    by_cases h : finalsOf rs = ""
    · simp [h]
    · simp [h]
  · unfold onResult
    rw [hfold]
    by_cases h : finalsOf rs = ""
    · simp [h, lastInterimOf]
    · simp [h, lastInterimOf]
  · unfold onResult
    rw [hfold]
    by_cases h : finalsOf rs = ""
    · simp [h]
    · simp [h]

/-- Claim C9.  On a decode failure (`safeParseJSON` yields the empty
object, which carries no `noteIds` field but is truthy) the function
returns the empty object — a non-array value — through
`parsed.noteIds || parsed || []`, not the empty array the claim states;
the short-circuits for a whitespace-only query and for an empty metadata
list do hold and perform no model call. -/
theorem claim_C9_search_decode_failure :
    performSemanticSearch "q" ["m"] "not json"
        = { modelCalled := true, result := JsValue.obj [] }
      ∧ performSemanticSearch "   " ["m"] "resp"
          = { modelCalled := false, result := JsValue.arr [] }
      ∧ performSemanticSearch "q" [] "resp"
          = { modelCalled := false, result := JsValue.arr [] } :=
  ⟨rfl, rfl, rfl⟩

/-- Claim C10.  `handleNoteCreated` is a pure prepend: the new batch forms
the head of the updated collection, and the previously stored notes form
its tail unchanged and in their prior order (so every old note is still
present). -/
theorem claim_C10_prepend (newNotes : NoteBatch) (prev : List Note) :
    (handleNoteCreated newNotes prev).take (batchList newNotes).length
        = batchList newNotes
      ∧ (handleNoteCreated newNotes prev).drop (batchList newNotes).length = prev
      ∧ ∀ n : Note, n ∈ prev → n ∈ handleNoteCreated newNotes prev := by
  refine ⟨?_, ?_, ?_⟩
  · simp [handleNoteCreated]
  · simp [handleNoteCreated]
  · intro n hn
    exact List.mem_append_right _ hn

end AiNote
